import Mathlib

/-!
Verification of the `lp` Launchpad driver (src/lib.rs, src/main.rs).

We shallowly embed the protocol codec, the device session (connection,
single-command send, diffed full update) and the widgets the claims are
about:

* `u8` values — including `pub type Key = u8` — are modelled as `Nat`;
  arithmetic that could overflow a `u8` carries an explicit `% 256`.
* A Rust panic (a failed `assert!` in the encoder, or a failed
  `HashMap::get_mut(..).unwrap()`) is modelled by `Option`: `none` is a
  panic / contract violation.
* The MIDI transport is modelled by a function `transmit : Command → Bool`
  saying which `out_con.send` calls succeed; a `false` result is the
  `midir::SendError` which the Rust code propagates with `?`.
-/

namespace Lp

/-- `coords_to_key(x, y) = 10 * y + x` (u8 arithmetic, hence a wrap at 256;
on the playable grid the sum never exceeds 99). -/
def coords_to_key (x y : Nat) : Nat := (10 * y + x) % 256

/-- `key_to_coords(key) = (key % 10, key / 10)`. -/
def key_to_coords (key : Nat) : Nat × Nat := (key % 10, key / 10)

/-- One step of the `iter::successors` closure inside `rect`: advance along a
row from `x0` to `x1`, then to the next row, until `(x1, y1)` is reached. -/
def rectStep (x0 x1 y1 x y : Nat) : Option (Nat × Nat) :=
  if x = x1 then
    if y = y1 then none else some (x0, y + 1)
  else
    some (x + 1, y)

/-- The coordinate sequence produced by `iter::successors` in `rect`,
generated with explicit fuel (the Rust iterator is lazy; the driver always
consumes it in full, and `rect` below supplies exactly enough fuel for the
whole rectangle). -/
def rectAux (x0 x1 y1 : Nat) : Nat → Nat × Nat → List (Nat × Nat)
  | 0, _ => []
  | fuel + 1, (x, y) =>
    (x, y) ::
      (match rectStep x0 x1 y1 x y with
        | none => []
        | some p => rectAux x0 x1 y1 fuel p)

/-- `rect(a, b)`: enumerate the rectangle of keys with corners `a` and `b`,
row-major (the Rust function asserts `x0 ≤ x1` and `y0 ≤ y1`; we keep the
enumeration total and the asserts are irrelevant to the claims, which only
use `rect 11 99`). -/
def rect (a b : Nat) : List Nat :=
  let p0 := key_to_coords a
  let p1 := key_to_coords b
  (rectAux p0.1 p1.1 p1.2 ((p1.2 + 1 - p0.2) * (p1.1 + 1 - p0.1)) p0).map
    (fun p => coords_to_key p.1 p.2)

/-- `enum SimpleColor`. -/
inductive SimpleColor where
  | Static (c : Nat)
  | Flashing (c : Nat)
  | Pulsing (c : Nat)
  deriving DecidableEq, Repr

/-- `enum ComplexColor`. -/
inductive ComplexColor where
  | Static (c : Nat)
  | Flashing (b a : Nat)
  | Pulsing (c : Nat)
  | Rgb (r g b : Nat)
  deriving DecidableEq, Repr

/-- `enum Color`. -/
inductive Color where
  | Simple (c : SimpleColor)
  | Complex (c : ComplexColor)
  deriving DecidableEq, Repr

/-- `enum TextColor`. -/
inductive TextColor where
  | Palette (p : Nat)
  | Rgb (r g b : Nat)
  deriving DecidableEq, Repr

/-- `enum Layout`. -/
inductive Layout where
  | Session
  | Drums
  | Keys
  | User
  | Programmer
  deriving DecidableEq, Repr

/-- `impl From<&Layout> for u8`. -/
def Layout.toByte : Layout → Nat
  | .Session => 0
  | .Drums => 4
  | .Keys => 5
  | .User => 6
  | .Programmer => 0x7f

/-- `bool as u8` (`(*b).into()`). -/
def boolByte (b : Bool) : Nat := if b then 1 else 0

/-- `enum Command`.  Scroll text is carried as its UTF-8 bytes. -/
inductive Command where
  | GetVersions
  | SetLayout (l : Layout)
  | GetLayout
  | SetProgrammerMode (enabled : Bool)
  | GetProgrammerMode
  | KeyOn (key : Nat) (color : SimpleColor)
  | KeyOff (key : Nat)
  | SetColors (colors : List (Nat × ComplexColor))
  | ScrollText (loops : Option Bool) (speed : Option Nat)
      (color : Option TextColor) (text : Option (List Nat))
  | SetAwake (awake : Bool)
  | GetAwake
  | SetBrightness (brightness : Nat)
  | GetBrightness
  | SetLedFeedback (internal external : Bool)
  | GetLedFeedback
  deriving DecidableEq, Repr

/-- The three key assertions guarding `KeyOn`, `KeyOff` and each `SetColors`
entry: `key >= 11`, `key <= 99`, `key % 10 != 0`. -/
def keyOk (key : Nat) : Bool :=
  decide (11 ≤ key) && decide (key ≤ 99) && decide (key % 10 ≠ 0)

/-- The bytes one `SetColors` list entry contributes. -/
def colorEntryBytes (key : Nat) (color : ComplexColor) : List Nat :=
  match color with
  | .Static c => [0, key, c]
  | .Flashing b a => [1, key, b, a]
  | .Pulsing c => [2, key, c]
  | .Rgb r g b => [3, key, r, g, b]

/-- `Command::append_to_vec`: the byte encoding of a command.  `none` is a
failed `assert!` (a contract violation; `write_all` into a `Vec` itself
cannot fail). -/
def appendToVec : Command → Option (List Nat)
  | .GetVersions => some [0xf0, 0x7e, 0x7f, 0x06, 0x01, 0xf7]
  | .SetLayout layout =>
      some [0xf0, 0x00, 0x20, 0x29, 0x02, 0x0d, 0x00, layout.toByte, 0xf7]
  | .GetLayout => some [0xf0, 0x00, 0x20, 0x29, 0x02, 0x0d, 0x00, 0xf7]
  | .SetProgrammerMode enabled =>
      some [0xf0, 0x00, 0x20, 0x29, 0x02, 0x0d, 0x0e, boolByte enabled, 0xf7]
  | .GetProgrammerMode => some [0xf0, 0x00, 0x20, 0x29, 0x02, 0x0d, 0x0e, 0xf7]
  | .KeyOn key color =>
      if keyOk key then
        some (match color with
          | .Static c => [0x90, key, c]
          | .Flashing c => [0x91, key, c]
          | .Pulsing c => [0x92, key, c])
      else none
  | .KeyOff key => if keyOk key then some [0x90, key, 0] else none
  | .SetColors colors =>
      if colors.length ≤ 81 && colors.all (fun e => keyOk e.1) then
        some ([0xf0, 0x00, 0x20, 0x29, 0x02, 0x0d, 0x03]
          ++ (colors.map (fun e => colorEntryBytes e.1 e.2)).flatten ++ [0xf7])
      else none
  | .ScrollText loops speed color text =>
      if (speed.isNone || loops.isSome) && (color.isNone || speed.isSome)
          && (text.isNone || color.isSome) then
        some ([0xf0, 0x00, 0x20, 0x29, 0x02, 0x0d, 0x07]
          ++ (match loops with | some l => [boolByte l] | none => [])
          ++ (match speed with | some s => [s] | none => [])
          ++ (match color with
              | some (.Palette p) => [0x00, p]
              | some (.Rgb r g b) => [0x01, r, g, b]
              | none => [])
          ++ (match text with | some t => t | none => [])
          ++ [0xf7])
      else none
  | .SetAwake awake =>
      some [0xf0, 0x00, 0x20, 0x29, 0x02, 0x0d, 0x09, boolByte awake, 0xf7]
  | .GetAwake => some [0xf0, 0x00, 0x20, 0x29, 0x02, 0x0d, 0x09, 0xf7]
  | .SetBrightness brightness =>
      some [0xf0, 0x00, 0x20, 0x29, 0x02, 0x0d, 0x08, brightness, 0xf7]
  | .GetBrightness => some [0xf0, 0x00, 0x20, 0x29, 0x02, 0x0d, 0x08, 0xf7]
  | .SetLedFeedback internal external =>
      some [0xf0, 0x00, 0x20, 0x29, 0x02, 0x0d, 0x0a, boolByte internal,
        boolByte external, 0xf7]
  | .GetLedFeedback => some [0xf0, 0x00, 0x20, 0x29, 0x02, 0x0d, 0x0a, 0xf7]

/-- `struct Launchpad`, without the two MIDI connection handles (the
transport is passed separately as `transmit : Command → Bool`).  The tracked
state `current : HashMap<Key, Color>` is modelled as a partial function;
`none` means the key is absent from the map. -/
@[ext]
structure Launchpad where
  send_buf : List Nat
  complex_color_buf : List (Nat × ComplexColor)
  current : Nat → Option Color

/-- The `for (key, color) in colors` loop of `send` for a `SetColors`
command: `*self.current.get_mut(&key).unwrap() = Color::Complex(*color)`;
`none` is the `unwrap` panic on an absent key. -/
def setCurrentMany (m : Nat → Option Color) :
    List (Nat × ComplexColor) → Option (Nat → Option Color)
  | [] => some m
  | e :: rest =>
    if (m e.1).isSome then
      setCurrentMany (fun k => if k = e.1 then some (.Complex e.2) else m k) rest
    else none

/-- `Launchpad::send`: encode (`append_to_vec(..).unwrap()`, so `none` on a
contract violation), transmit (`out_con.send(..)?`, recorded in the `Bool`:
`false` means the send error was propagated with state otherwise unchanged),
then on success update the tracked state for `KeyOn` and `SetColors`. -/
def send (transmit : Command → Bool) (lp : Launchpad) (c : Command) :
    Option (Launchpad × Bool) :=
  match appendToVec c with
  | none => none
  | some bytes =>
    if transmit c then
      let lp1 : Launchpad := { lp with send_buf := bytes }
      match c with
      | .KeyOn key color =>
        if (lp1.current key).isSome then
          some ({ lp1 with
            current := fun k =>
              if k = key then some (.Simple color) else lp1.current k }, true)
        else none
      | .SetColors colors =>
        match setCurrentMany lp1.current colors with
        | none => none
        | some m => some ({ lp1 with current := m }, true)
      | _ => some (lp1, true)
    else some ({ lp with send_buf := bytes }, false)

/-- The `for key in rect(11, 99)` loop inside `Launchpad::connect`, building
the initial tracked state: each enumerated key is inserted with
`Color::Simple(SimpleColor::Static(0))`. -/
def initCurrent : List Nat → (Nat → Option Color) → (Nat → Option Color)
  | [], m => m
  | k :: rest, m =>
      initCurrent rest
        (fun k2 => if k2 = k then some (.Simple (.Static 0)) else m k2)

/-- The state-building tail of `Launchpad::connect` (port discovery and the
MIDI connections are transport concerns outside this model): start from an
empty map, insert `Static(0)` for every key of `rect(11, 99)`, then
`send(SetProgrammerMode(true))?`. -/
def connect (transmit : Command → Bool) : Option Launchpad :=
  let lp : Launchpad :=
    { send_buf := []
      complex_color_buf := []
      current := initCurrent (rect 11 99) (fun _ => none) }
  match send transmit lp (.SetProgrammerMode true) with
  | none => none
  | some (lp2, true) => some lp2
  | some (_, false) => none

/-- The `for key in rect(11, 99)` loop of `Launchpad::full_update`, with the
already-sent commands accumulated in `sent`.  For each key: index the
desired and tracked maps (`none` = panic on an absent key), skip if equal,
otherwise write the desired color into the tracked map, then either
`_send(KeyOn(key, c))?` for a simple color (a failed transmit returns
immediately, `Bool = false`) or push `(key, c)` onto `complex_color_buf`
for a complex one. -/
def fullUpdateGo (transmit : Command → Bool) (new : Nat → Color) :
    List Nat → Launchpad → List Command → Option (Launchpad × List Command × Bool)
  | [], lp, sent => some (lp, sent, true)
  | key :: rest, lp, sent =>
    match lp.current key with
    | none => none
    | some cur =>
      if new key = cur then
        fullUpdateGo transmit new rest lp sent
      else
        let lp1 : Launchpad :=
          { lp with current := fun k => if k = key then some (new key) else lp.current k }
        match new key with
        | .Simple c =>
          match appendToVec (.KeyOn key c) with
          | none => none
          | some bytes =>
            let lp2 : Launchpad := { lp1 with send_buf := bytes }
            if transmit (.KeyOn key c) then
              fullUpdateGo transmit new rest lp2 (sent ++ [.KeyOn key c])
            else some (lp2, sent, false)
        | .Complex c =>
          fullUpdateGo transmit new rest
            { lp1 with complex_color_buf := lp1.complex_color_buf ++ [(key, c)] } sent

/-- `Launchpad::full_update`: clear `complex_color_buf`, run the key scan,
and if the buffer is non-empty `_send(SetColors(buffer))?`.  The result is
the final state, the successfully transmitted commands in order, and
whether the pass completed without a transport error. -/
def full_update (transmit : Command → Bool) (lp : Launchpad) (new : Nat → Color) :
    Option (Launchpad × List Command × Bool) :=
  match fullUpdateGo transmit new (rect 11 99)
      { lp with complex_color_buf := [] } [] with
  | none => none
  | some (lp1, sent, false) => some (lp1, sent, false)
  | some (lp1, sent, true) =>
    if lp1.complex_color_buf.isEmpty then some (lp1, sent, true)
    else
      match appendToVec (.SetColors lp1.complex_color_buf) with
      | none => none
      | some bytes =>
        let lp2 : Launchpad := { lp1 with send_buf := bytes }
        if transmit (.SetColors lp1.complex_color_buf) then
          some (lp2, sent ++ [.SetColors lp1.complex_color_buf], true)
        else some (lp2, sent, false)

/-- The 81 playable keys written out in raster order: y from 1 to 9 and,
within each row, x from 1 to 9 (`key = 10*y + x`). -/
def rasterKeys : List Nat :=
  ((List.range' 1 9).map (fun y => (List.range' 1 9).map (fun x => 10 * y + x))).flatten

/-- Declarative description of the single-key commands a scan over `keys`
issues: one `KeyOn` per key, in order, whose desired color is simple and
differs from the tracked color. -/
def simpleCmds (cur : Nat → Option Color) (new : Nat → Color) (keys : List Nat) :
    List Command :=
  keys.filterMap fun k =>
    if cur k = some (new k) then none
    else match new k with
      | .Simple c => some (.KeyOn k c)
      | .Complex _ => none

/-- Declarative description of the batch entries a scan over `keys`
accumulates: one `(key, color)` per key, in order, whose desired color is
complex and differs from the tracked color. -/
def complexEntries (cur : Nat → Option Color) (new : Nat → Color) (keys : List Nat) :
    List (Nat × ComplexColor) :=
  keys.filterMap fun k =>
    if cur k = some (new k) then none
    else match new k with
      | .Complex c => some (k, c)
      | .Simple _ => none

/-- The tracked map is defined exactly on the playable keys. -/
def mapDomainOk (m : Nat → Option Color) : Prop :=
  ∀ k, (m k).isSome ↔ keyOk k = true

/-- `enum Event` (src/main.rs). -/
inductive Event where
  | KeyDown (k : Nat)
  | KeyUp (k : Nat)
  | Brightness (b : Nat)
  | I3
  | MediaPlaying (playing : Bool)
  | Redraw
  | Exit
  deriving DecidableEq, Repr

/-- The per-tick `struct Ui` context a widget sees: the pending frame
buffer and the current event.  The real frame buffer is a `HashMap` over
the keys inserted at the top of the tick (the playable grid); widgets are
only invoked at inserted keys, so we model it as a total function and
`fb.get_mut(&key).unwrap()` as a plain update.  The Launchpad handle used
for side effects is modelled by returning the commands sent. -/
structure Ui where
  fb : Nat → Color
  event : Event

/-- `Ui::impulse_button`: update the persistent `pressed` flag (set by
`KeyDown` on the key, cleared by `KeyUp` on it), render it, and return true
exactly when the current event is `KeyDown` at the key.  Result:
(updated context, new `pressed` flag, returned value). -/
def impulse_button (ui : Ui) (key : Nat) (color pressed_color : Color)
    (pressed : Bool) : Ui × Bool × Bool :=
  let pressed1 : Bool :=
    match ui.event with
    | .KeyDown k => if k = key then true else pressed
    | .KeyUp k => if k = key then false else pressed
    | _ => pressed
  let fb1 := fun k =>
    if k = key then (if pressed1 then pressed_color else color) else ui.fb k
  let ret : Bool :=
    match ui.event with
    | .KeyDown k => decide (k = key)
    | _ => false
  ({ fb := fb1, event := ui.event }, pressed1, ret)

/-- `Ui::monostable`: the persistent slot is
`data.entry(..).or_insert(val)` — when no value was recorded yet the
previous value is initialized to the current `val` itself; the return value
is `val && !prev`, and `val` is then stored.  Result: (returned value,
newly recorded value). -/
def monostable (val : Bool) (prev : Option Bool) : Bool × Bool :=
  let p := prev.getD val
  (val && !p, val)

/-- Run `monostable` over a sequence of input values for one identity,
threading the recorded value, starting from a fresh identity (`none`). -/
def monostableRunFrom : Option Bool → List Bool → List Bool
  | _, [] => []
  | st, v :: rest =>
    let r := monostable v st
    r.1 :: monostableRunFrom (some r.2) rest

/-- `monostableRunFrom` starting from a fresh identity. -/
def monostableRun (vals : List Bool) : List Bool := monostableRunFrom none vals

/-- Rounding half away from zero, the behavior of Rust's `f32::round`. -/
def rustRound (q : ℚ) : ℤ := if 0 ≤ q then ⌊q + 1 / 2⌋ else ⌈q - 1 / 2⌉

/-- The brightness byte `led_slider` computes for slider position `i`:
Rust evaluates `(i as f32 * 127. / 7. - 0.1).round() as u8`.  We model the
arithmetic with exact rationals: for i ∈ [0, 7] every intermediate value is
at least 0.04 away from a rounding boundary, far beyond the error of the
f32 computation (≤ 2⁻¹⁷ here), so the f32 result and the exact result of
`round(i*127/7 - 0.1)` coincide; `as u8` saturates (negative values to 0,
handled by `Int.toNat`, values above 255 to 255). -/
def brightnessValue (i : Nat) : Nat :=
  min (rustRound ((i : ℚ) * 127 / 7 - 1 / 10)).toNat 255

/-- The `for i in 0..8` loop of `Ui::led_slider`, iterated over the list of
remaining indices: each iteration renders `start + i` through
`impulse_button` (color 113 when `brightness / 16` — default 255 — equals
`i`, else 104) and, when the impulse fires, sends `SetBrightness` with the
computed byte followed by `GetBrightness`.  Result: (updated context,
updated per-index impulse flags, commands sent). -/
def ledSliderLoop (start : Nat) (brightness : Option Nat) :
    List Nat → Ui → (Nat → Bool) → Ui × (Nat → Bool) × List Command
  | [], ui, pst => (ui, pst, [])
  | i :: rest, ui, pst =>
    let color : Color :=
      if brightness.getD 255 / 16 = i then .Simple (.Static 113)
      else .Simple (.Static 104)
    let r := impulse_button ui (start + i) color color (pst i)
    let pst1 := fun j => if j = i then r.2.1 else pst j
    let cmds : List Command :=
      if r.2.2 then [.SetBrightness (brightnessValue i), .GetBrightness] else []
    let rest1 := ledSliderLoop start brightness rest r.1 pst1
    (rest1.1, rest1.2.1, cmds ++ rest1.2.2)

/-- `Ui::led_slider`: assert `start % 10 == 1` (`none` on violation),
record a `Brightness` event into the persistent slot, query the brightness
if still unknown, then run the 8-button loop.  Result: (updated context,
recorded brightness, per-index impulse flags, commands sent in order). -/
def led_slider (ui : Ui) (start : Nat) (brightness : Option Nat)
    (pst : Nat → Bool) :
    Option (Ui × Option Nat × (Nat → Bool) × List Command) :=
  if start % 10 = 1 then
    let brightness1 : Option Nat :=
      match ui.event with
      | .Brightness b => some b
      | _ => brightness
    let query : List Command :=
      if brightness1.isNone then [.GetBrightness] else []
    let r := ledSliderLoop start brightness1 (List.range 8) ui pst
    some (r.1, brightness1, r.2.1, query ++ r.2.2)
  else none

/-- The wire bytes of a well-formed `ScrollText` command, as laid out by
`append_to_vec`: header, then the optional loops, speed, color and text
fields in order, then the SysEx terminator. -/
def scrollTextBytes (loops : Option Bool) (speed : Option Nat)
    (color : Option TextColor) (text : Option (List Nat)) : List Nat :=
  [0xf0, 0x00, 0x20, 0x29, 0x02, 0x0d, 0x07]
    ++ (match loops with | some l => [boolByte l] | none => [])
    ++ (match speed with | some s => [s] | none => [])
    ++ (match color with
        | some (.Palette p) => [0x00, p]
        | some (.Rgb r g b) => [0x01, r, g, b]
        | none => [])
    ++ (match text with | some t => t | none => [])
    ++ [0xf7]

/-- A concrete session state for witnesses: the tracked map holds
`Static(0)` at every playable key, exactly the state `connect` builds. -/
def wLp : Launchpad :=
  { send_buf := []
    complex_color_buf := []
    current := fun k => if keyOk k then some (.Simple (.Static 0)) else none }

/-- A concrete desired map for witnesses: a simple color on key 11, the
rest unchanged from `wLp`. -/
def wNewSimple : Nat → Color :=
  fun k => if k = 11 then .Simple (.Static 1) else .Simple (.Static 0)

/-- A concrete desired map for the transmit-failure scenario: simple
changes at keys 11 and 12 and a complex change at key 13. -/
def wNewFail : Nat → Color :=
  fun k =>
    if k = 11 then .Simple (.Static 1)
    else if k = 12 then .Simple (.Static 2)
    else if k = 13 then .Complex (.Static 3)
    else .Simple (.Static 0)

/-- A transport that rejects exactly the single-key command for key 11 of
`wNewFail` and accepts everything else. -/
def wFailTransmit : Command → Bool :=
  fun c => decide (c ≠ .KeyOn 11 (.Static 1))

/-- A tick context whose event is `KeyDown(55)`, for the consecutive
key-down scenario. -/
def wUiDown55 : Ui :=
  { fb := fun _ => .Simple (.Static 0), event := .KeyDown 55 }

/-- The session state `connect (fun _ => true)` produces: the tracked map
filled over `rect 11 99` and the `SetProgrammerMode(true)` bytes in the
encode buffer. -/
def wConnectLp : Launchpad :=
  { send_buf := [0xf0, 0x00, 0x20, 0x29, 0x02, 0x0d, 0x0e, 1, 0xf7]
    complex_color_buf := []
    current := initCurrent (rect 11 99) (fun _ => none) }

/-! ### Basic facts about keys and the grid enumeration -/

theorem keyOk_iff (key : Nat) :
    keyOk key = true ↔ 11 ≤ key ∧ key ≤ 99 ∧ key % 10 ≠ 0 := by
  simp [keyOk, and_assoc]

theorem rect_eq_rasterKeys : rect 11 99 = rasterKeys := by decide

theorem rasterKeys_nodup : rasterKeys.Nodup := by decide

theorem mem_rasterKeys_iff (k : Nat) : k ∈ rasterKeys ↔ keyOk k = true := by
  constructor
  · have h : ∀ j ∈ rasterKeys, keyOk j = true := by decide
    exact h k
  · intro hk
    have hlt : k < 100 := by
      have := (keyOk_iff k).mp hk
      omega
    have h : ∀ j < 100, keyOk j = true → j ∈ rasterKeys := by decide
    exact h k hlt hk

theorem mem_rect_iff (k : Nat) : k ∈ rect 11 99 ↔ keyOk k = true := by
  rw [rect_eq_rasterKeys]
  exact mem_rasterKeys_iff k

theorem rect_nodup : (rect 11 99).Nodup := by
  rw [rect_eq_rasterKeys]
  exact rasterKeys_nodup

/-! ### C4: coordinate round-trip -/

/-- C4: for all x in [1,9] and y in [1,9],
`key_to_coords(coords_to_key(x, y)) = (x, y)`. -/
theorem key_coords_roundtrip (x y : Nat) (hx1 : 1 ≤ x) (hx9 : x ≤ 9)
    (hy1 : 1 ≤ y) (hy9 : y ≤ 9) :
    key_to_coords (coords_to_key x y) = (x, y) := by
  unfold coords_to_key key_to_coords
  have h : (10 * y + x) % 256 = 10 * y + x := Nat.mod_eq_of_lt (by omega)
  rw [h]
  simp only [Prod.mk.injEq]
  omega

/-- Witness for C4 at (x, y) = (3, 7). -/
theorem key_coords_roundtrip_witness : key_to_coords (coords_to_key 3 7) = (3, 7) :=
  key_coords_roundtrip 3 7 (by decide) (by decide) (by decide) (by decide)

/-! ### C5: key-range contract of the encoder -/

/-- C5: encoding `KeyOn`, `KeyOff` or `SetColors` fails exactly when a
referenced key is outside [11,99] or a multiple of 10, or the color list
has more than 81 entries; in particular `KeyOn(5, _)` and `KeyOn(20, _)`
fail; with every key in range and at most 81 entries the commands encode
to their fixed byte layouts. -/
theorem encode_key_contract :
    (∀ key c, appendToVec (.KeyOn key c) = none ↔
      key < 11 ∨ 99 < key ∨ key % 10 = 0)
    ∧ (∀ key, appendToVec (.KeyOff key) = none ↔
      key < 11 ∨ 99 < key ∨ key % 10 = 0)
    ∧ (∀ colors : List (Nat × ComplexColor), appendToVec (.SetColors colors) = none ↔
      81 < colors.length ∨ ∃ e ∈ colors, e.1 < 11 ∨ 99 < e.1 ∨ e.1 % 10 = 0)
    ∧ (∀ c, appendToVec (.KeyOn 5 c) = none)
    ∧ (∀ c, appendToVec (.KeyOn 20 c) = none)
    ∧ (∀ key c, 11 ≤ key → key ≤ 99 → key % 10 ≠ 0 →
      appendToVec (.KeyOn key c) = some (match c with
        | .Static n => [0x90, key, n]
        | .Flashing n => [0x91, key, n]
        | .Pulsing n => [0x92, key, n]))
    ∧ (∀ key, 11 ≤ key → key ≤ 99 → key % 10 ≠ 0 →
      appendToVec (.KeyOff key) = some [0x90, key, 0])
    ∧ (∀ colors : List (Nat × ComplexColor), colors.length ≤ 81 →
      (∀ e ∈ colors, 11 ≤ e.1 ∧ e.1 ≤ 99 ∧ e.1 % 10 ≠ 0) →
      appendToVec (.SetColors colors) =
        some ([0xf0, 0x00, 0x20, 0x29, 0x02, 0x0d, 0x03]
          ++ (colors.map (fun e => colorEntryBytes e.1 e.2)).flatten ++ [0xf7])) := by
  have hkey : ∀ key : Nat, keyOk key = true ↔ ¬(key < 11 ∨ 99 < key ∨ key % 10 = 0) := by
    intro key
    rw [keyOk_iff]
    omega
  have hcond : ∀ colors : List (Nat × ComplexColor),
      ((decide (colors.length ≤ 81) && colors.all fun e => keyOk e.1) = true) ↔
        ¬(81 < colors.length ∨ ∃ e ∈ colors, e.1 < 11 ∨ 99 < e.1 ∨ e.1 % 10 = 0) := by
    intro colors
    rw [Bool.and_eq_true, decide_eq_true_eq, List.all_eq_true]
    constructor
    · rintro ⟨h1, h2⟩ hbad
      rcases hbad with hlen | ⟨e, he, hb⟩
      · omega
      · have := (keyOk_iff e.1).mp (h2 e he)
        omega
    · intro hn
      refine ⟨?_, fun e he => (keyOk_iff e.1).mpr ?_⟩
      · by_contra hlen
        exact hn (Or.inl (by omega))
      · by_contra hb
        refine hn (Or.inr ⟨e, he, ?_⟩)
        omega
  refine ⟨?_, ?_, ?_, ?_, ?_, ?_, ?_, ?_⟩
  · intro key c
    simp only [appendToVec]
    by_cases h : keyOk key = true
    · rw [if_pos h]
      exact iff_of_false (by simp) ((hkey key).mp h)
    · rw [if_neg h]
      exact iff_of_true rfl (not_not.mp fun hnp => h ((hkey key).mpr hnp))
  · intro key
    simp only [appendToVec]
    by_cases h : keyOk key = true
    · rw [if_pos h]
      exact iff_of_false (by simp) ((hkey key).mp h)
    · rw [if_neg h]
      exact iff_of_true rfl (not_not.mp fun hnp => h ((hkey key).mpr hnp))
  · intro colors
    simp only [appendToVec]
    by_cases h : (decide (colors.length ≤ 81) && colors.all fun e => keyOk e.1) = true
    · rw [if_pos h]
      exact iff_of_false (by simp) ((hcond colors).mp h)
    · rw [if_neg h]
      exact iff_of_true rfl (not_not.mp fun hnp => h ((hcond colors).mpr hnp))
  · intro c
    simp [appendToVec, keyOk]
  · intro c
    simp [appendToVec, keyOk]
  · intro key c h1 h2 h3
    have hk : keyOk key = true := (keyOk_iff key).mpr ⟨h1, h2, h3⟩
    simp [appendToVec, hk]
  · intro key h1 h2 h3
    have hk : keyOk key = true := (keyOk_iff key).mpr ⟨h1, h2, h3⟩
    simp [appendToVec, hk]
  · intro colors h1 h2
    have hall : colors.all (fun e => keyOk e.1) = true := by
      rw [List.all_eq_true]
      intro e he
      exact (keyOk_iff e.1).mpr (h2 e he)
    simp [appendToVec, h1, hall]

/-- Witness for C5: `KeyOn(5, _)` and `KeyOn(20, _)` fail, a valid `KeyOn`,
`KeyOff` and one-entry `SetColors` encode to their layouts. -/
theorem encode_key_contract_witness :
    appendToVec (.KeyOn 5 (.Static 0)) = none
    ∧ appendToVec (.KeyOn 20 (.Static 0)) = none
    ∧ appendToVec (.KeyOn 55 (.Static 3)) = some [0x90, 55, 3]
    ∧ appendToVec (.KeyOff 11) = some [0x90, 11, 0]
    ∧ appendToVec (.SetColors [(11, .Rgb 1 2 3)])
        = some [0xf0, 0x00, 0x20, 0x29, 0x02, 0x0d, 0x03, 3, 11, 1, 2, 3, 0xf7] :=
  ⟨encode_key_contract.2.2.2.1 (.Static 0),
   encode_key_contract.2.2.2.2.1 (.Static 0),
   encode_key_contract.2.2.2.2.2.1 55 (.Static 3) (by decide) (by decide) (by decide),
   encode_key_contract.2.2.2.2.2.2.1 11 (by decide) (by decide) (by decide),
   encode_key_contract.2.2.2.2.2.2.2 [(11, .Rgb 1 2 3)] (by decide) (by decide)⟩

/-! ### C6: ScrollText optional-field prefix chain -/

/-- C6: encoding `ScrollText` fails exactly when some supplied optional
field's predecessor in the loops–speed–color–text chain is absent, and
every combination respecting the prefix chain encodes to the ScrollText
wire layout. -/
theorem scroll_text_prefix_chain (loops : Option Bool) (speed : Option Nat)
    (color : Option TextColor) (text : Option (List Nat)) :
    (appendToVec (.ScrollText loops speed color text) = none ↔
      ¬((speed.isSome = true → loops.isSome = true)
        ∧ (color.isSome = true → speed.isSome = true)
        ∧ (text.isSome = true → color.isSome = true)))
    ∧ ((speed.isSome = true → loops.isSome = true) →
       (color.isSome = true → speed.isSome = true) →
       (text.isSome = true → color.isSome = true) →
       appendToVec (.ScrollText loops speed color text)
         = some (scrollTextBytes loops speed color text)) := by
  rcases loops with _ | l <;> rcases speed with _ | s <;> rcases color with _ | c <;>
    rcases text with _ | t <;> simp [appendToVec, scrollTextBytes]

/-- Witness for C6: a fully-supplied ScrollText encodes; a color with no
speed fails. -/
theorem scroll_text_prefix_chain_witness :
    appendToVec (.ScrollText (some true) (some 15) (some (.Palette 3)) (some [104]))
      = some (scrollTextBytes (some true) (some 15) (some (.Palette 3)) (some [104]))
    ∧ appendToVec (.ScrollText none none (some (.Palette 3)) none) = none :=
  ⟨(scroll_text_prefix_chain (some true) (some 15) (some (.Palette 3)) (some [104])).2
      (by decide) (by decide) (by decide),
   (scroll_text_prefix_chain none none (some (.Palette 3)) none).1.mpr (by decide)⟩

/-! ### C7: impulse button behavior on consecutive key-downs -/

/-- C7 counterexample: processing `KeyDown(55)` on two consecutive ticks
with no intervening `KeyUp(55)`, `impulse_button` returns true on BOTH
ticks, contradicting the claim that the second tick returns false. -/
theorem impulse_button_counterexample :
    ((impulse_button wUiDown55 55 (.Simple (.Static 0)) (.Simple (.Static 5))
        false).2.2 = true)
    ∧ ((impulse_button
        (impulse_button wUiDown55 55 (.Simple (.Static 0)) (.Simple (.Static 5))
          false).1
        55 (.Simple (.Static 0)) (.Simple (.Static 5))
        (impulse_button wUiDown55 55 (.Simple (.Static 0)) (.Simple (.Static 5))
          false).2.1).2.2 = true) := by
  decide

/-- C7 amended: `impulse_button` returns true exactly on the ticks whose
event is `KeyDown` at its key — once per KeyDown event, not once per
physical press — so consecutive `KeyDown`s without a `KeyUp` yield true on
every such tick; the persistent held flag only drives rendering. -/
theorem impulse_button_fires_per_keydown (ui : Ui) (key : Nat)
    (color pressed_color : Color) (pressed : Bool) :
    (impulse_button ui key color pressed_color pressed).2.2 = true
      ↔ ui.event = .KeyDown key := by
  rcases hev : ui.event <;> simp [impulse_button, hev]

/-! ### C8: monostable initialization and rising edges -/

theorem monostableRunFrom_some (p : Bool) (vs : List Bool) :
    monostableRunFrom (some p) vs
      = List.zipWith (fun prev x => x && !prev) (p :: vs) vs := by
  induction vs generalizing p with
  | nil => rfl
  | cons x xs ih => simp [monostableRunFrom, monostable, ih x]

/-- C8 counterexample: for a fresh identity, `monostable(true, id)` returns
FALSE on the first call (the recorded previous value is initialized to the
current input by `or_insert(val)`), contradicting the claimed true; the
second call also returns false. -/
theorem monostable_counterexample :
    (monostable true none).1 = false
    ∧ (monostable true (some (monostable true none).2)).1 = false := by
  decide

/-- C8 amended: for a fresh identity the first call never reports a rising
edge — the recorded value is initialized to the current input — and each
later call returns true exactly when the input is true and the previously
recorded input was false; in particular `monostable(true, id)` twice
returns false, then false. -/
theorem monostable_rising_edge (v : Bool) (vs : List Bool) :
    monostableRun (v :: vs)
      = false :: List.zipWith (fun prev x => x && !prev) (v :: vs) vs := by
  simp [monostableRun, monostableRunFrom, monostable, monostableRunFrom_some]

/-! ### Step lemmas for the full-update scan -/

theorem simpleCmds_cons_skip {cur : Nat → Option Color} {new : Nat → Color}
    {key : Nat} {rest : List Nat} (h : cur key = some (new key)) :
    simpleCmds cur new (key :: rest) = simpleCmds cur new rest := by
  simp [simpleCmds, List.filterMap_cons, h]

theorem simpleCmds_cons_simple {cur : Nat → Option Color} {new : Nat → Color}
    {key : Nat} {rest : List Nat} {c : SimpleColor}
    (h : ¬cur key = some (new key)) (hnew : new key = .Simple c) :
    simpleCmds cur new (key :: rest) = .KeyOn key c :: simpleCmds cur new rest := by
  rw [hnew] at h
  simp [simpleCmds, List.filterMap_cons, hnew, h]

theorem simpleCmds_cons_complex {cur : Nat → Option Color} {new : Nat → Color}
    {key : Nat} {rest : List Nat} {c : ComplexColor}
    (h : ¬cur key = some (new key)) (hnew : new key = .Complex c) :
    simpleCmds cur new (key :: rest) = simpleCmds cur new rest := by
  rw [hnew] at h
  simp [simpleCmds, List.filterMap_cons, hnew, h]

theorem complexEntries_cons_skip {cur : Nat → Option Color} {new : Nat → Color}
    {key : Nat} {rest : List Nat} (h : cur key = some (new key)) :
    complexEntries cur new (key :: rest) = complexEntries cur new rest := by
  simp [complexEntries, List.filterMap_cons, h]

theorem complexEntries_cons_simple {cur : Nat → Option Color} {new : Nat → Color}
    {key : Nat} {rest : List Nat} {c : SimpleColor}
    (h : ¬cur key = some (new key)) (hnew : new key = .Simple c) :
    complexEntries cur new (key :: rest) = complexEntries cur new rest := by
  rw [hnew] at h
  simp [complexEntries, List.filterMap_cons, hnew, h]

theorem complexEntries_cons_complex {cur : Nat → Option Color} {new : Nat → Color}
    {key : Nat} {rest : List Nat} {c : ComplexColor}
    (h : ¬cur key = some (new key)) (hnew : new key = .Complex c) :
    complexEntries cur new (key :: rest) = (key, c) :: complexEntries cur new rest := by
  rw [hnew] at h
  simp [complexEntries, List.filterMap_cons, hnew, h]

theorem simpleCmds_congr {c1 c2 : Nat → Option Color} {new : Nat → Color}
    {keys : List Nat} (h : ∀ k ∈ keys, c1 k = c2 k) :
    simpleCmds c1 new keys = simpleCmds c2 new keys := by
  unfold simpleCmds
  exact List.filterMap_congr (fun k hk => by rw [h k hk])

theorem complexEntries_congr {c1 c2 : Nat → Option Color} {new : Nat → Color}
    {keys : List Nat} (h : ∀ k ∈ keys, c1 k = c2 k) :
    complexEntries c1 new keys = complexEntries c2 new keys := by
  unfold complexEntries
  exact List.filterMap_congr (fun k hk => by rw [h k hk])

theorem complexEntries_key_mem {cur : Nat → Option Color} {new : Nat → Color} :
    ∀ {keys : List Nat} {e : Nat × ComplexColor},
      e ∈ complexEntries cur new keys → e.1 ∈ keys := by
  intro keys e he
  unfold complexEntries at he
  obtain ⟨k, hk, hfk⟩ := List.mem_filterMap.mp he
  by_cases h : cur k = some (new k)
  · simp [h] at hfk
  · rcases hnew : new k with c | c <;> simp [h, hnew] at hfk
    rw [← hfk.2]
    exact hk

theorem keyOn_encodes {key : Nat} (c : SimpleColor) (h : keyOk key = true) :
    appendToVec (.KeyOn key c) = some (match c with
      | .Static n => [0x90, key, n]
      | .Flashing n => [0x91, key, n]
      | .Pulsing n => [0x92, key, n]) := by
  simp [appendToVec, h]

theorem fullUpdateGo_cons_skip {t : Command → Bool} {new : Nat → Color}
    {key : Nat} {rest : List Nat} {lp : Launchpad} {sent : List Command}
    {cur : Color} (hcur : lp.current key = some cur) (hch : new key = cur) :
    fullUpdateGo t new (key :: rest) lp sent = fullUpdateGo t new rest lp sent := by
  simp [fullUpdateGo, hcur, hch]

theorem fullUpdateGo_cons_simple {t : Command → Bool} {new : Nat → Color}
    {key : Nat} {rest : List Nat} {lp : Launchpad} {sent : List Command}
    {cur : Color} {c : SimpleColor} {bytes : List Nat}
    (hcur : lp.current key = some cur) (hch : ¬new key = cur)
    (hnew : new key = .Simple c)
    (henc : appendToVec (.KeyOn key c) = some bytes)
    (ht : t (.KeyOn key c) = true) :
    fullUpdateGo t new (key :: rest) lp sent
      = fullUpdateGo t new rest
          { lp with
            send_buf := bytes
            current := fun k => if k = key then some (new key) else lp.current k }
          (sent ++ [.KeyOn key c]) := by
  simp only [fullUpdateGo, hcur]
  rw [if_neg hch]
  simp only [hnew, henc, ht, if_true]

theorem fullUpdateGo_cons_simple_fail {t : Command → Bool} {new : Nat → Color}
    {key : Nat} {rest : List Nat} {lp : Launchpad} {sent : List Command}
    {cur : Color} {c : SimpleColor} {bytes : List Nat}
    (hcur : lp.current key = some cur) (hch : ¬new key = cur)
    (hnew : new key = .Simple c)
    (henc : appendToVec (.KeyOn key c) = some bytes)
    (ht : t (.KeyOn key c) = false) :
    fullUpdateGo t new (key :: rest) lp sent
      = some ({ lp with
          send_buf := bytes
          current := fun k => if k = key then some (new key) else lp.current k },
          sent, false) := by
  simp only [fullUpdateGo, hcur]
  rw [if_neg hch]
  simp only [hnew, henc, ht, if_false, Bool.false_eq_true]

theorem fullUpdateGo_cons_complex {t : Command → Bool} {new : Nat → Color}
    {key : Nat} {rest : List Nat} {lp : Launchpad} {sent : List Command}
    {cur : Color} {c : ComplexColor}
    (hcur : lp.current key = some cur) (hch : ¬new key = cur)
    (hnew : new key = .Complex c) :
    fullUpdateGo t new (key :: rest) lp sent
      = fullUpdateGo t new rest
          { lp with
            complex_color_buf := lp.complex_color_buf ++ [(key, c)]
            current := fun k => if k = key then some (new key) else lp.current k }
          sent := by
  simp only [fullUpdateGo, hcur]
  rw [if_neg hch]
  simp only [hnew]

/-- The all-success run of the key scan: it transmits exactly the
`simpleCmds`, accumulates exactly the `complexEntries`, and overwrites the
tracked color of every scanned key with its desired color. -/
theorem fullUpdateGo_true_spec (new : Nat → Color) :
    ∀ (keys : List Nat) (lp : Launchpad) (sent : List Command),
      (∀ k ∈ keys, (lp.current k).isSome = true) →
      (∀ k ∈ keys, keyOk k = true) →
      keys.Nodup →
      ∃ lp2,
        fullUpdateGo (fun _ => true) new keys lp sent
          = some (lp2, sent ++ simpleCmds lp.current new keys, true)
        ∧ lp2.complex_color_buf
            = lp.complex_color_buf ++ complexEntries lp.current new keys
        ∧ (∀ k, lp2.current k = if k ∈ keys then some (new k) else lp.current k) := by
  intro keys
  induction keys with
  | nil =>
    intro lp sent _ _ _
    refine ⟨lp, ?_, ?_, ?_⟩ <;> simp [fullUpdateGo, simpleCmds, complexEntries]
  | cons key rest ih =>
    intro lp sent hdom hok hnd
    obtain ⟨cur, hcur⟩ := Option.isSome_iff_exists.mp (hdom key (by simp))
    rw [List.nodup_cons] at hnd
    obtain ⟨hkey_notin, hnd⟩ := hnd
    have hdom' : ∀ k ∈ rest, (lp.current k).isSome = true :=
      fun k hk => hdom k (by simp [hk])
    have hok' : ∀ k ∈ rest, keyOk k = true := fun k hk => hok k (by simp [hk])
    by_cases hch : new key = cur
    · have hcur' : lp.current key = some (new key) := by rw [hcur, hch]
      obtain ⟨lp2, h1, h2, h3⟩ := ih lp sent hdom' hok' hnd
      refine ⟨lp2, ?_, ?_, ?_⟩
      · rw [fullUpdateGo_cons_skip hcur hch, h1, simpleCmds_cons_skip hcur']
      · rw [h2, complexEntries_cons_skip hcur']
      · intro k
        rw [h3 k]
        by_cases hk : k ∈ rest
        · simp [hk]
        · by_cases hkk : k = key
          · subst hkk
            simp [hk, hcur']
          · simp [hk, hkk]
    · have hne : ¬lp.current key = some (new key) := by
        rw [hcur]
        intro hcon
        injection hcon with hcon'
        exact hch hcon'.symm
      rcases hnewk : new key with c | c
      · -- changed, simple color: an immediate KeyOn is transmitted
        obtain ⟨bytes, henc⟩ : ∃ b, appendToVec (.KeyOn key c) = some b :=
          ⟨_, keyOn_encodes c (hok key (by simp))⟩
        have hstep : fullUpdateGo (fun _ => true) new (key :: rest) lp sent
            = fullUpdateGo (fun _ => true) new rest
                { lp with
                  send_buf := bytes
                  current := fun k => if k = key then some (new key) else lp.current k }
                (sent ++ [.KeyOn key c]) :=
          fullUpdateGo_cons_simple hcur hch hnewk henc rfl
        obtain ⟨lp3, h1, h2, h3⟩ := ih
          { lp with
            send_buf := bytes
            current := fun k => if k = key then some (new key) else lp.current k }
          (sent ++ [.KeyOn key c])
          (by
            intro k hk
            have hkk : k ≠ key := fun he => hkey_notin (he ▸ hk)
            simpa [hkk] using hdom' k hk)
          hok' hnd
        have hcureq : ∀ k ∈ rest,
            (fun k => if k = key then some (new key) else lp.current k) k
              = lp.current k := by
          intro k hk
          have hkk : k ≠ key := fun he => hkey_notin (he ▸ hk)
          simp [hkk]
        refine ⟨lp3, ?_, ?_, ?_⟩
        · rw [hstep, h1, simpleCmds_congr hcureq,
            simpleCmds_cons_simple hne hnewk, List.append_assoc]
          rfl
        · rw [h2, complexEntries_congr hcureq,
            complexEntries_cons_simple hne hnewk]
        · intro k
          rw [h3 k]
          by_cases hk : k ∈ rest
          · simp [hk]
          · by_cases hkk : k = key
            · subst hkk
              simp [hk]
            · simp [hk, hkk]
      · -- changed, complex color: the entry is pushed onto the batch buffer
        have hstep : fullUpdateGo (fun _ => true) new (key :: rest) lp sent
            = fullUpdateGo (fun _ => true) new rest
                { lp with
                  complex_color_buf := lp.complex_color_buf ++ [(key, c)]
                  current := fun k => if k = key then some (new key) else lp.current k }
                sent :=
          fullUpdateGo_cons_complex hcur hch hnewk
        obtain ⟨lp3, h1, h2, h3⟩ := ih
          { lp with
            complex_color_buf := lp.complex_color_buf ++ [(key, c)]
            current := fun k => if k = key then some (new key) else lp.current k }
          sent
          (by
            intro k hk
            have hkk : k ≠ key := fun he => hkey_notin (he ▸ hk)
            simpa [hkk] using hdom' k hk)
          hok' hnd
        have hcureq : ∀ k ∈ rest,
            (fun k => if k = key then some (new key) else lp.current k) k
              = lp.current k := by
          intro k hk
          have hkk : k ≠ key := fun he => hkey_notin (he ▸ hk)
          simp [hkk]
        refine ⟨lp3, ?_, ?_, ?_⟩
        · rw [hstep, h1, simpleCmds_congr hcureq,
            simpleCmds_cons_complex hne hnewk]
        · rw [h2, complexEntries_congr hcureq,
            complexEntries_cons_complex hne hnewk]
          simp
        · intro k
          rw [h3 k]
          by_cases hk : k ∈ rest
          · simp [hk]
          · by_cases hkk : k = key
            · subst hkk
              simp [hk]
            · simp [hk, hkk]

/-- The all-success full update: commands are exactly the per-key `KeyOn`s
in scan order followed by at most one `SetColors` batching every changed
complex key, and the tracked state afterwards equals the desired map on the
playable grid. -/
theorem full_update_true_spec (lp : Launchpad) (new : Nat → Color)
    (hdom : ∀ k ∈ rect 11 99, (lp.current k).isSome = true) :
    ∃ lp2,
      full_update (fun _ => true) lp new
        = some (lp2,
            simpleCmds lp.current new (rect 11 99)
              ++ (if complexEntries lp.current new (rect 11 99) = [] then []
                  else [.SetColors (complexEntries lp.current new (rect 11 99))]),
            true)
      ∧ (∀ k, lp2.current k = if k ∈ rect 11 99 then some (new k) else lp.current k)
      ∧ lp2.complex_color_buf = complexEntries lp.current new (rect 11 99) := by
  obtain ⟨lp1, hgo, hbuf, hcurf⟩ := fullUpdateGo_true_spec new (rect 11 99)
    { lp with complex_color_buf := [] } []
    (by simpa using hdom) (fun k hk => (mem_rect_iff k).mp hk) rect_nodup
  simp only [List.nil_append] at hgo hbuf
  by_cases hce : complexEntries lp.current new (rect 11 99) = []
  · refine ⟨lp1, ?_, hcurf, by simpa [hce] using hbuf⟩
    simp only [full_update]
    rw [hgo]
    simp [hbuf, hce]
  · have hlen : (complexEntries lp.current new (rect 11 99)).length ≤ 81 := by
      have hle : (complexEntries lp.current new (rect 11 99)).length
          ≤ (rect 11 99).length := by
        unfold complexEntries
        exact List.length_filterMap_le _ _
      have h81 : (rect 11 99).length = 81 := by decide
      omega
    have hkeys : (complexEntries lp.current new (rect 11 99)).all
        (fun e => keyOk e.1) = true := by
      rw [List.all_eq_true]
      intro e he
      exact (mem_rect_iff e.1).mp (complexEntries_key_mem he)
    have henc : appendToVec (.SetColors (complexEntries lp.current new (rect 11 99)))
        = some ([0xf0, 0x00, 0x20, 0x29, 0x02, 0x0d, 0x03]
            ++ ((complexEntries lp.current new (rect 11 99)).map
                (fun e => colorEntryBytes e.1 e.2)).flatten ++ [0xf7]) := by
      simp [appendToVec, hlen, hkeys]
    refine ⟨{ lp1 with
        send_buf := [0xf0, 0x00, 0x20, 0x29, 0x02, 0x0d, 0x03]
          ++ ((complexEntries lp.current new (rect 11 99)).map
              (fun e => colorEntryBytes e.1 e.2)).flatten ++ [0xf7] },
      ?_, hcurf, by simpa using hbuf⟩
    simp only [full_update]
    rw [hgo]
    simp only [hbuf]
    rw [if_neg (by simp [List.isEmpty_iff, hce])]
    rw [henc]
    simp [hce]

/-! ### C1: the reconcile scan -/

/-- C1: `full_update` scans the playable keys in raster order (`rect 11 99`
is exactly `rasterKeys`); an unchanged key contributes no command, a
changed simple-colored key contributes one immediate `KeyOn` (in scan
order), and the changed complex-colored keys are batched, in scan order,
into exactly one trailing `SetColors` command — none when no complex key
changed. -/
theorem full_update_raster_scan (lp : Launchpad) (new : Nat → Color)
    (hdom : ∀ k ∈ rect 11 99, (lp.current k).isSome = true) :
    rect 11 99 = rasterKeys
    ∧ (full_update (fun _ => true) lp new).map (fun r => (r.2.1, r.2.2))
        = some (simpleCmds lp.current new rasterKeys
            ++ (if complexEntries lp.current new rasterKeys = [] then []
                else [.SetColors (complexEntries lp.current new rasterKeys)]),
            true) := by
  obtain ⟨lp2, heq, _, _⟩ := full_update_true_spec lp new hdom
  refine ⟨rect_eq_rasterKeys, ?_⟩
  rw [← rect_eq_rasterKeys, heq]
  rfl

/-- Witness for C1 at the freshly connected state and a desired map with
two simple changes and one complex change. -/
theorem full_update_raster_scan_witness :
    rect 11 99 = rasterKeys
    ∧ (full_update (fun _ => true) wLp wNewFail).map (fun r => (r.2.1, r.2.2))
        = some (simpleCmds wLp.current wNewFail rasterKeys
            ++ (if complexEntries wLp.current wNewFail rasterKeys = [] then []
                else [.SetColors (complexEntries wLp.current wNewFail rasterKeys)]),
            true) :=
  full_update_raster_scan wLp wNewFail (by decide)

/-! ### C3: reconcile is idempotent -/

theorem fullUpdateGo_no_change (t : Command → Bool) (new : Nat → Color) :
    ∀ (keys : List Nat) (lp : Launchpad) (sent : List Command),
      (∀ k ∈ keys, lp.current k = some (new k)) →
      fullUpdateGo t new keys lp sent = some (lp, sent, true) := by
  intro keys
  induction keys with
  | nil => intro lp sent _; rfl
  | cons key rest ih =>
    intro lp sent h
    rw [fullUpdateGo_cons_skip (h key (by simp)) rfl]
    exact ih lp sent (fun k hk => h k (by simp [hk]))

/-- C3: after a fully successful `full_update`, running `full_update` again
with the same desired map emits zero commands. -/
theorem full_update_idempotent (lp : Launchpad) (new : Nat → Color)
    (hdom : ∀ k ∈ rect 11 99, (lp.current k).isSome = true) :
    (full_update (fun _ => true) lp new).elim False (fun r =>
      (full_update (fun _ => true) r.1 new).map (fun x => (x.2.1, x.2.2))
        = some ([], true)) := by
  obtain ⟨lp2, heq, hcurf, _⟩ := full_update_true_spec lp new hdom
  rw [heq]
  simp only [Option.elim]
  have hgo := fullUpdateGo_no_change (fun _ => true) new (rect 11 99)
    { lp2 with complex_color_buf := [] } []
    (fun k hk => by simp [hcurf k, hk])
  simp only [full_update]
  rw [hgo]
  simp

/-- Witness for C3 at the freshly connected state. -/
theorem full_update_idempotent_witness :
    (full_update (fun _ => true) wLp wNewFail).elim False (fun r =>
      (full_update (fun _ => true) r.1 wNewFail).map (fun x => (x.2.1, x.2.2))
        = some ([], true)) :=
  full_update_idempotent wLp wNewFail (by decide)

/-! ### C2: the tracked state covers exactly the playable keys -/

theorem initCurrent_spec :
    ∀ (keys : List Nat) (m : Nat → Option Color) (k : Nat),
      initCurrent keys m k = if k ∈ keys then some (.Simple (.Static 0)) else m k := by
  intro keys
  induction keys with
  | nil => intro m k; simp [initCurrent]
  | cons key rest ih =>
    intro m k
    simp only [initCurrent]
    rw [ih]
    by_cases hk : k ∈ rest
    · simp [hk]
    · by_cases hkk : k = key
      · subst hkk
        simp [hk]
      · simp [hk, hkk]

theorem connect_eq : connect (fun _ => true) = some wConnectLp := rfl

theorem mapDomainOk_update {m : Nat → Option Color} {key : Nat} {v : Color}
    (h : mapDomainOk m) (hk : (m key).isSome = true) :
    mapDomainOk (fun k => if k = key then some v else m k) := by
  intro k
  by_cases e : k = key
  · subst e
    simp only [if_pos rfl]
    exact iff_of_true rfl ((h k).mp hk)
  · simp only [if_neg e]
    exact h k

theorem setCurrentMany_preserves_domain :
    ∀ (entries : List (Nat × ComplexColor)) (m m' : Nat → Option Color),
      mapDomainOk m → setCurrentMany m entries = some m' → mapDomainOk m' := by
  intro entries
  induction entries with
  | nil =>
    intro m m' h hs
    simp only [setCurrentMany, Option.some.injEq] at hs
    rw [← hs]
    exact h
  | cons e rest ih =>
    intro m m' h hs
    simp only [setCurrentMany] at hs
    by_cases hk : (m e.1).isSome = true
    · rw [if_pos hk] at hs
      exact ih _ m' (mapDomainOk_update h hk) hs
    · rw [if_neg hk] at hs
      exact absurd hs (by simp)

/-- Anatomy of a successful `send`: the tracked map is unchanged, pointwise
updated at a present key (`KeyOn`), or rewritten by `setCurrentMany`
(`SetColors`). -/
theorem send_current_cases (t : Command → Bool) (lp : Launchpad) (c : Command)
    (r : Launchpad × Bool) (hs : send t lp c = some r) :
    r.1.current = lp.current
    ∨ (∃ key color, c = .KeyOn key color ∧ (lp.current key).isSome = true
        ∧ r.1.current = fun k => if k = key then some (.Simple color) else lp.current k)
    ∨ (∃ colors, c = .SetColors colors
        ∧ setCurrentMany lp.current colors = some r.1.current) := by
  unfold send at hs
  rcases henc : appendToVec c with _ | bytes <;> rw [henc] at hs <;> dsimp only at hs
  · exact absurd hs (by simp)
  by_cases ht : t c = true
  · rw [if_pos ht] at hs
    cases c with
    | KeyOn key color =>
      dsimp only at hs
      by_cases hk : (lp.current key).isSome = true
      · rw [if_pos hk] at hs
        injection hs with h1
        subst h1
        exact Or.inr (Or.inl ⟨key, color, rfl, hk, rfl⟩)
      · rw [if_neg hk] at hs
        exact absurd hs (by simp)
    | SetColors colors =>
      dsimp only at hs
      rcases hsc : setCurrentMany lp.current colors with _ | m' <;> rw [hsc] at hs
      · exact absurd hs (by simp)
      · injection hs with h1
        subst h1
        exact Or.inr (Or.inr ⟨colors, rfl, hsc⟩)
    | GetVersions => injection hs with h1; subst h1; exact Or.inl rfl
    | SetLayout l => injection hs with h1; subst h1; exact Or.inl rfl
    | GetLayout => injection hs with h1; subst h1; exact Or.inl rfl
    | SetProgrammerMode b => injection hs with h1; subst h1; exact Or.inl rfl
    | GetProgrammerMode => injection hs with h1; subst h1; exact Or.inl rfl
    | KeyOff key => injection hs with h1; subst h1; exact Or.inl rfl
    | ScrollText l s col tx => injection hs with h1; subst h1; exact Or.inl rfl
    | SetAwake b => injection hs with h1; subst h1; exact Or.inl rfl
    | GetAwake => injection hs with h1; subst h1; exact Or.inl rfl
    | SetBrightness b => injection hs with h1; subst h1; exact Or.inl rfl
    | GetBrightness => injection hs with h1; subst h1; exact Or.inl rfl
    | SetLedFeedback i e => injection hs with h1; subst h1; exact Or.inl rfl
    | GetLedFeedback => injection hs with h1; subst h1; exact Or.inl rfl
  · rw [if_neg ht] at hs
    injection hs with h1
    subst h1
    exact Or.inl rfl

theorem send_preserves_domain (t : Command → Bool) (lp : Launchpad) (c : Command)
    (r : Launchpad × Bool) (h : mapDomainOk lp.current)
    (hs : send t lp c = some r) : mapDomainOk r.1.current := by
  rcases send_current_cases t lp c r hs with h1 | ⟨key, color, _, hk, h1⟩ | ⟨colors, _, h1⟩
  · rw [h1]; exact h
  · rw [h1]; exact mapDomainOk_update h hk
  · exact setCurrentMany_preserves_domain colors lp.current r.1.current h h1

theorem fullUpdateGo_preserves_domain (t : Command → Bool) (new : Nat → Color) :
    ∀ (keys : List Nat) (lp : Launchpad) (sent : List Command)
      (r : Launchpad × List Command × Bool),
      mapDomainOk lp.current → fullUpdateGo t new keys lp sent = some r →
      mapDomainOk r.1.current := by
  intro keys
  induction keys with
  | nil =>
    intro lp sent r h hs
    injection hs with h1
    subst h1
    exact h
  | cons key rest ih =>
    intro lp sent r h hs
    rcases hcur : lp.current key with _ | cur
    · rw [show fullUpdateGo t new (key :: rest) lp sent = none from by
        simp [fullUpdateGo, hcur]] at hs
      exact absurd hs (by simp)
    · have hk : (lp.current key).isSome = true := by simp [hcur]
      by_cases hch : new key = cur
      · rw [fullUpdateGo_cons_skip hcur hch] at hs
        exact ih lp sent r h hs
      · rcases hnewk : new key with c | c
        · rcases henc : appendToVec (.KeyOn key c) with _ | bytes
          · rw [show fullUpdateGo t new (key :: rest) lp sent = none from by
              simp only [fullUpdateGo, hcur]
              rw [if_neg hch]
              simp [hnewk, henc]] at hs
            exact absurd hs (by simp)
          · by_cases ht : t (.KeyOn key c) = true
            · rw [fullUpdateGo_cons_simple hcur hch hnewk henc ht] at hs
              exact ih _ _ r (mapDomainOk_update h hk) hs
            · rw [fullUpdateGo_cons_simple_fail hcur hch hnewk henc
                (Bool.eq_false_iff.mpr ht)] at hs
              injection hs with h1
              subst h1
              exact mapDomainOk_update h hk
        · rw [fullUpdateGo_cons_complex hcur hch hnewk] at hs
          exact ih _ _ r (mapDomainOk_update h hk) hs

theorem full_update_preserves_domain (t : Command → Bool) (lp : Launchpad)
    (new : Nat → Color) (r : Launchpad × List Command × Bool)
    (h : mapDomainOk lp.current) (hs : full_update t lp new = some r) :
    mapDomainOk r.1.current := by
  unfold full_update at hs
  rcases hgo : fullUpdateGo t new (rect 11 99) { lp with complex_color_buf := [] } []
      with _ | ⟨lp1, sent, ok⟩ <;> rw [hgo] at hs
  · exact absurd hs (by simp)
  · have h' : mapDomainOk ({ lp with complex_color_buf := [] } : Launchpad).current := h
    have h1 : mapDomainOk lp1.current :=
      fullUpdateGo_preserves_domain t new (rect 11 99)
        { lp with complex_color_buf := [] } [] (lp1, sent, ok) h' hgo
    cases ok with
    | false =>
      injection hs with h2
      subst h2
      exact h1
    | true =>
      dsimp only at hs
      by_cases hb : lp1.complex_color_buf.isEmpty = true
      · rw [if_pos hb] at hs
        injection hs with h2
        subst h2
        exact h1
      · rw [if_neg hb] at hs
        rcases henc : appendToVec (.SetColors lp1.complex_color_buf) with _ | bytes <;>
          rw [henc] at hs <;> dsimp only at hs
        · exact absurd hs (by simp)
        · by_cases ht : t (.SetColors lp1.complex_color_buf) = true
          · rw [if_pos ht] at hs
            injection hs with h2
            subst h2
            exact h1
          · rw [if_neg ht] at hs
            injection hs with h2
            subst h2
            exact h1

/-- C2: after `connect` the tracked state maps exactly the 81 playable keys
(`keyOk`), each to `Static(0)`; every successful `send` and every
successful `full_update` preserves this domain, so each playable key always
has exactly one tracked color. -/
theorem tracked_state_invariant :
    (∀ lp, connect (fun _ => true) = some lp →
      (∀ k, keyOk k = true → lp.current k = some (.Simple (.Static 0)))
      ∧ (∀ k, keyOk k = false → lp.current k = none))
    ∧ (∀ (t : Command → Bool) (lp : Launchpad) (c : Command) (r : Launchpad × Bool),
        mapDomainOk lp.current → send t lp c = some r → mapDomainOk r.1.current)
    ∧ (∀ (t : Command → Bool) (lp : Launchpad) (new : Nat → Color)
        (r : Launchpad × List Command × Bool),
        mapDomainOk lp.current → full_update t lp new = some r →
        mapDomainOk r.1.current) := by
  refine ⟨?_, send_preserves_domain, fun t lp new r => full_update_preserves_domain t lp new r⟩
  intro lp h
  rw [connect_eq] at h
  injection h with h
  subst h
  constructor
  · intro k hk
    rw [show wConnectLp.current k = initCurrent (rect 11 99) (fun _ => none) k from rfl,
      initCurrent_spec]
    rw [if_pos ((mem_rect_iff k).mpr hk)]
  · intro k hk
    rw [show wConnectLp.current k = initCurrent (rect 11 99) (fun _ => none) k from rfl,
      initCurrent_spec]
    rw [if_neg (fun hm => by simp [(mem_rect_iff k).mp hm] at hk)]

/-- Witness for C2: the connected state at keys 55 (playable) and 20
(control row), a send and a full update evaluated on concrete inputs. -/
theorem tracked_state_invariant_witness :
    wConnectLp.current 55 = some (.Simple (.Static 0))
    ∧ wConnectLp.current 20 = none
    ∧ (send (fun _ => true) wLp (.KeyOn 11 (.Static 5))).elim False
        (fun r => (r.1.current 11).isSome = true ∧ (r.1.current 10).isSome = false)
    ∧ (full_update (fun _ => true) wLp wNewSimple).elim False
        (fun r => (r.1.current 99).isSome = true ∧ (r.1.current 100).isSome = false) := by
  have hdom : mapDomainOk wLp.current := by
    intro k
    by_cases h : keyOk k = true <;> simp [wLp, h]
  refine ⟨?_, ?_, ?_, ?_⟩
  · exact ((tracked_state_invariant.1 wConnectLp rfl).1) 55 (by decide)
  · exact ((tracked_state_invariant.1 wConnectLp rfl).2) 20 (by decide)
  · rcases hs : send (fun _ => true) wLp (.KeyOn 11 (.Static 5)) with _ | r
    · have hns : (send (fun _ => true) wLp (.KeyOn 11 (.Static 5))).isSome = true := by
        decide
      rw [hs] at hns
      exact absurd hns (by simp)
    · simp only [Option.elim]
      have hd := tracked_state_invariant.2.1 (fun _ => true) wLp _ r hdom hs
      refine ⟨(hd 11).mpr (by decide), Bool.eq_false_iff.mpr (fun hT => ?_)⟩
      exact absurd ((hd 10).mp hT) (by decide)
  · rcases hs : full_update (fun _ => true) wLp wNewSimple with _ | r
    · have hns : (full_update (fun _ => true) wLp wNewSimple).isSome = true := by
        decide
      rw [hs] at hns
      exact absurd hns (by simp)
    · simp only [Option.elim]
      have hd := tracked_state_invariant.2.2 (fun _ => true) wLp wNewSimple r hdom hs
      refine ⟨(hd 99).mpr (by decide), Bool.eq_false_iff.mpr (fun hT => ?_)⟩
      exact absurd ((hd 100).mp hT) (by decide)

/-! ### C9: a failed single-key transmission aborts the scan -/

/-- If the single-key commands of the scan split as `pre ++ fc :: post`
with every command of `pre` transmitted successfully and `fc` rejected by
the transport, the scan stops at `fc`: exactly `pre` is sent and the error
is returned. -/
theorem fullUpdateGo_fail_spec (t : Command → Bool) (new : Nat → Color) :
    ∀ (keys : List Nat) (lp : Launchpad) (sent : List Command)
      (pre : List Command) (fc : Command) (post : List Command),
      (∀ k ∈ keys, (lp.current k).isSome = true) →
      (∀ k ∈ keys, keyOk k = true) →
      keys.Nodup →
      simpleCmds lp.current new keys = pre ++ fc :: post →
      (∀ d ∈ pre, t d = true) →
      t fc = false →
      ∃ lp2, fullUpdateGo t new keys lp sent = some (lp2, sent ++ pre, false) := by
  intro keys
  induction keys with
  | nil =>
    intro lp sent pre fc post _ _ _ hsplit _ _
    exact absurd hsplit (by simp [simpleCmds])
  | cons key rest ih =>
    intro lp sent pre fc post hdom hok hnd hsplit hpre hfc
    obtain ⟨cur, hcur⟩ := Option.isSome_iff_exists.mp (hdom key (by simp))
    rw [List.nodup_cons] at hnd
    obtain ⟨hkni, hnd⟩ := hnd
    have hdom' : ∀ k ∈ rest, (lp.current k).isSome = true :=
      fun k hk => hdom k (by simp [hk])
    have hok' : ∀ k ∈ rest, keyOk k = true := fun k hk => hok k (by simp [hk])
    by_cases hch : new key = cur
    · have hcur' : lp.current key = some (new key) := by rw [hcur, hch]
      rw [fullUpdateGo_cons_skip hcur hch]
      rw [simpleCmds_cons_skip hcur'] at hsplit
      exact ih lp sent pre fc post hdom' hok' hnd hsplit hpre hfc
    · have hne : ¬lp.current key = some (new key) := by
        rw [hcur]
        intro hcon
        injection hcon with hcon'
        exact hch hcon'.symm
      rcases hnewk : new key with c | c
      · rw [simpleCmds_cons_simple hne hnewk] at hsplit
        obtain ⟨bytes, henc⟩ : ∃ b, appendToVec (.KeyOn key c) = some b :=
          ⟨_, keyOn_encodes c (hok key (by simp))⟩
        cases pre with
        | nil =>
          simp only [List.nil_append, List.cons.injEq] at hsplit
          have hfc' : t (.KeyOn key c) = false := by
            rw [hsplit.1]
            exact hfc
          refine ⟨{ lp with
            send_buf := bytes
            current := fun k => if k = key then some (new key) else lp.current k }, ?_⟩
          rw [fullUpdateGo_cons_simple_fail hcur hch hnewk henc hfc', List.append_nil]
        | cons p pre' =>
          simp only [List.cons_append, List.cons.injEq] at hsplit
          obtain ⟨hp, hsplit'⟩ := hsplit
          have ht : t (.KeyOn key c) = true := by
            rw [hp]
            exact hpre p (by simp)
          rw [fullUpdateGo_cons_simple hcur hch hnewk henc ht]
          have hcureq : ∀ k ∈ rest,
              ({ lp with
                  send_buf := bytes
                  current := fun k => if k = key then some (new key) else lp.current k }
                : Launchpad).current k = lp.current k := by
            intro k hk
            have hkk : k ≠ key := fun he => hkni (he ▸ hk)
            simp [hkk]
          obtain ⟨lp3, h1⟩ := ih
            { lp with
              send_buf := bytes
              current := fun k => if k = key then some (new key) else lp.current k }
            (sent ++ [.KeyOn key c]) pre' fc post
            (by
              intro k hk
              have hkk : k ≠ key := fun he => hkni (he ▸ hk)
              simpa [hkk] using hdom' k hk)
            hok' hnd
            (by rw [simpleCmds_congr hcureq, hsplit'])
            (fun d hd => hpre d (by simp [hd])) hfc
          refine ⟨lp3, ?_⟩
          rw [h1, List.append_assoc, ← hp]
          rfl
      · rw [simpleCmds_cons_complex hne hnewk] at hsplit
        rw [fullUpdateGo_cons_complex hcur hch hnewk]
        have hcureq : ∀ k ∈ rest,
            ({ lp with
                complex_color_buf := lp.complex_color_buf ++ [(key, c)]
                current := fun k => if k = key then some (new key) else lp.current k }
              : Launchpad).current k = lp.current k := by
          intro k hk
          have hkk : k ≠ key := fun he => hkni (he ▸ hk)
          simp [hkk]
        exact ih
          { lp with
            complex_color_buf := lp.complex_color_buf ++ [(key, c)]
            current := fun k => if k = key then some (new key) else lp.current k }
          sent pre fc post
          (by
            intro k hk
            have hkk : k ≠ key := fun he => hkni (he ▸ hk)
            simpa [hkk] using hdom' k hk)
          hok' hnd
          (by rw [simpleCmds_congr hcureq, hsplit])
          hpre hfc

/-- C9 counterexample: with a desired map changing keys 11 and 12 to simple
colors and key 13 to a complex color, and a transport failing exactly on
the key-11 command, `full_update` returns the error having issued NO
commands — key 12 is not updated (still `Static(0)`) and no `SetColors` is
emitted for key 13 — contradicting the claim that the pass continues. -/
theorem full_update_error_counterexample :
    (full_update wFailTransmit wLp wNewFail).map
        (fun r => (r.2.1, r.2.2, r.1.current 12, r.1.current 13))
      = some ([], false, some (.Simple (.Static 0)), some (.Simple (.Static 0))) := by
  decide

/-- C9 amended: a failed single-key-on transmission aborts the whole
reconcile pass — `full_update` propagates the error immediately, issuing
only the single-key commands that preceded the failure in scan order, and
in particular never issuing the batched `SetColors`. -/
theorem full_update_abort (t : Command → Bool) (lp : Launchpad) (new : Nat → Color)
    (pre : List Command) (fc : Command) (post : List Command)
    (hdom : ∀ k ∈ rect 11 99, (lp.current k).isSome = true)
    (hsplit : simpleCmds lp.current new (rect 11 99) = pre ++ fc :: post)
    (hpre : ∀ d ∈ pre, t d = true) (hfc : t fc = false) :
    (full_update t lp new).map (fun r => (r.2.1, r.2.2)) = some (pre, false) := by
  obtain ⟨lp2, hgo⟩ := fullUpdateGo_fail_spec t new (rect 11 99)
    { lp with complex_color_buf := [] } [] pre fc post (by simpa using hdom)
    (fun k hk => (mem_rect_iff k).mp hk) rect_nodup hsplit hpre hfc
  simp only [full_update]
  rw [hgo]
  rfl

/-- Witness for C9's amended theorem at the concrete failing scenario. -/
theorem full_update_abort_witness :
    (full_update wFailTransmit wLp wNewFail).map (fun r => (r.2.1, r.2.2))
      = some ([], false) :=
  full_update_abort wFailTransmit wLp wNewFail [] (.KeyOn 11 (.Static 1))
    [.KeyOn 12 (.Static 2)] (by decide) (by decide) (by decide) (by decide)

/-! ### C10: the brightness slider -/

theorem impulse_button_event (ui : Ui) (key : Nat) (c pc : Color) (p : Bool) :
    (impulse_button ui key c pc p).1.event = ui.event := rfl

theorem impulse_button_ret (ui : Ui) (key : Nat) (c pc : Color) (p : Bool)
    (k : Nat) (hev : ui.event = .KeyDown k) :
    (impulse_button ui key c pc p).2.2 = decide (k = key) := by
  simp [impulse_button, hev]

theorem brightnessValue_table :
    (List.range 8).map brightnessValue = [0, 18, 36, 54, 72, 91, 109, 127] := by
  have h0 : brightnessValue 0 = 0 := by
    rw [brightnessValue, rustRound, if_neg (by norm_num),
      show ⌈((0 : ℕ) : ℚ) * 127 / 7 - 1 / 10 - 1 / 2⌉ = 0 from by
        rw [Int.ceil_eq_iff]
        norm_num]
    decide
  have h1 : brightnessValue 1 = 18 := by
    rw [brightnessValue, rustRound, if_pos (by norm_num),
      show ⌊((1 : ℕ) : ℚ) * 127 / 7 - 1 / 10 + 1 / 2⌋ = 18 from by
        rw [Int.floor_eq_iff]
        norm_num]
    decide
  have h2 : brightnessValue 2 = 36 := by
    rw [brightnessValue, rustRound, if_pos (by norm_num),
      show ⌊((2 : ℕ) : ℚ) * 127 / 7 - 1 / 10 + 1 / 2⌋ = 36 from by
        rw [Int.floor_eq_iff]
        norm_num]
    decide
  have h3 : brightnessValue 3 = 54 := by
    rw [brightnessValue, rustRound, if_pos (by norm_num),
      show ⌊((3 : ℕ) : ℚ) * 127 / 7 - 1 / 10 + 1 / 2⌋ = 54 from by
        rw [Int.floor_eq_iff]
        norm_num]
    decide
  have h4 : brightnessValue 4 = 72 := by
    rw [brightnessValue, rustRound, if_pos (by norm_num),
      show ⌊((4 : ℕ) : ℚ) * 127 / 7 - 1 / 10 + 1 / 2⌋ = 72 from by
        rw [Int.floor_eq_iff]
        norm_num]
    decide
  have h5 : brightnessValue 5 = 91 := by
    rw [brightnessValue, rustRound, if_pos (by norm_num),
      show ⌊((5 : ℕ) : ℚ) * 127 / 7 - 1 / 10 + 1 / 2⌋ = 91 from by
        rw [Int.floor_eq_iff]
        norm_num]
    decide
  have h6 : brightnessValue 6 = 109 := by
    rw [brightnessValue, rustRound, if_pos (by norm_num),
      show ⌊((6 : ℕ) : ℚ) * 127 / 7 - 1 / 10 + 1 / 2⌋ = 109 from by
        rw [Int.floor_eq_iff]
        norm_num]
    decide
  have h7 : brightnessValue 7 = 127 := by
    rw [brightnessValue, rustRound, if_pos (by norm_num),
      show ⌊((7 : ℕ) : ℚ) * 127 / 7 - 1 / 10 + 1 / 2⌋ = 127 from by
        rw [Int.floor_eq_iff]
        norm_num]
    decide
  rw [show List.range 8 = [0, 1, 2, 3, 4, 5, 6, 7] from rfl]
  simp [h0, h1, h2, h3, h4, h5, h6, h7]

/-- Commands sent by the slider loop on a `KeyDown(k)` tick: one
`SetBrightness`/`GetBrightness` pair for every loop index whose button is
the pressed key. -/
theorem ledSliderLoop_sends (start : Nat) (b : Option Nat) (k : Nat) :
    ∀ (idxs : List Nat) (ui : Ui) (pst : Nat → Bool),
      ui.event = .KeyDown k →
      (ledSliderLoop start b idxs ui pst).2.2
        = ((idxs.filter (fun j => k = start + j)).map
            (fun j => [Command.SetBrightness (brightnessValue j),
              Command.GetBrightness])).flatten := by
  intro idxs
  induction idxs with
  | nil => intro ui pst _; rfl
  | cons i rest ih =>
    intro ui pst hev
    have hev1 : (impulse_button ui (start + i)
        (if b.getD 255 / 16 = i then Color.Simple (.Static 113)
          else Color.Simple (.Static 104))
        (if b.getD 255 / 16 = i then Color.Simple (.Static 113)
          else Color.Simple (.Static 104))
        (pst i)).1.event = Event.KeyDown k := by
      rw [impulse_button_event, hev]
    simp only [ledSliderLoop]
    rw [impulse_button_ret ui (start + i) _ _ (pst i) k hev, ih _ _ hev1,
      List.filter_cons]
    by_cases hk : k = start + i
    · simp [hk]
    · simp [hk]

/-- C10: when the event is a press of the slider button at offset `i`, the
slider sends the device `SetBrightness(round(i*127/7 - 0.1))` (then queries
it back), and this formula yields exactly 0, 18, 36, 54, 72, 91, 109, 127
for i = 0..7. -/
theorem led_slider_brightness (ui : Ui) (start : Nat) (b0 : Option Nat)
    (pst : Nat → Bool) (i : Nat)
    (hstart : start % 10 = 1) (hi : i < 8) (hev : ui.event = .KeyDown (start + i)) :
    (led_slider ui start b0 pst).map (fun r => r.2.2.2)
      = some ((if b0.isNone then [Command.GetBrightness] else [])
          ++ [Command.SetBrightness (brightnessValue i), Command.GetBrightness])
    ∧ (List.range 8).map brightnessValue = [0, 18, 36, 54, 72, 91, 109, 127] := by
  refine ⟨?_, brightnessValue_table⟩
  simp only [led_slider, hev]
  rw [if_pos hstart]
  rw [ledSliderLoop_sends start b0 (start + i) (List.range 8) ui pst hev]
  have hcong : ∀ j ∈ List.range 8,
      (decide (start + i = start + j) : Bool) = decide (i = j) := by
    intro j _
    by_cases h : i = j
    · subst h
      simp
    · have hne : ¬start + i = start + j := fun hc => h (by omega)
      simp [h, hne]
  rw [List.filter_congr hcong]
  have hfil : (List.range 8).filter (fun j => decide (i = j)) = [i] := by
    interval_cases i <;> rfl
  rw [hfil]
  rfl

/-- Witness for C10 at start = 1, slider offset i = 5, known brightness. -/
theorem led_slider_brightness_witness :
    (led_slider ⟨fun _ => Color.Simple (.Static 0), .KeyDown 6⟩ 1 (some 72)
        (fun _ => false)).map (fun r => r.2.2.2)
      = some ((if (some 72 : Option Nat).isNone then [Command.GetBrightness] else [])
          ++ [Command.SetBrightness (brightnessValue 5), Command.GetBrightness])
    ∧ (List.range 8).map brightnessValue = [0, 18, 36, 54, 72, 91, 109, 127] :=
  led_slider_brightness ⟨fun _ => Color.Simple (.Static 0), .KeyDown 6⟩ 1 (some 72)
    (fun _ => false) 5 (by decide) (by decide) rfl

end Lp
